import Mathlib

/-!
Verification of the `deno upgrade` module (`cli/tools/upgrade.rs`).

The Rust module is shallowly embedded: pure string manipulation is
translated to Lean functions on `String`/`List Char`; process effects
(network fetches, filesystem mutation, subprocess spawns, printing) are
recorded in an explicit effect trace, and collaborator outcomes (HTTP
responses, subprocess exit statuses, filesystem call results) are
supplied by an environment record `Env`.
-/

namespace DenoUpgrade

/-- `semver_parser::version::Version`, restricted to the
`major.minor.patch` core used by this module (the upgrade workflow only
compares and prints versions). -/
structure Version where
  major : Nat
  minor : Nat
  patch : Nat
deriving DecidableEq, Repr

/-- Display form of a version, as produced by the semver `Display`
implementation for a plain `major.minor.patch` version. -/
def Version.toString (v : Version) : String :=
  Nat.repr v.major ++ "." ++ Nat.repr v.minor ++ "." ++ Nat.repr v.patch

/-- Boolean `>=` on versions: lexicographic on (major, minor, patch),
matching semver precedence for versions without pre-release tags. -/
def Version.bge (a b : Version) : Bool :=
  decide (b.major < a.major ∨ (b.major = a.major ∧
    (b.minor < a.minor ∨ (b.minor = a.minor ∧ b.patch ≤ a.patch))))

/-- `crate::http_util::FetchOnceResult` — the contract of the external
fetch collaborator. -/
inductive FetchOnceResult where
  | Code (body : List Nat) (contentType : Option String)
  | NotModified
  | Redirect (url : String) (contentType : Option String)
deriving DecidableEq, Repr

/-- Observable effects of one upgrade invocation, in order. -/
inductive Effect where
  | print (s : String)
  | eprint (s : String)
  | readFile (p : String)
  | fetch (url : String)
  | createTempDir
  | createFile (p : String)
  | spawnGunzip
  | writeFile (p : String)
  | spawnPowershell
  | spawnUnzip
  | setPermissions (p : String)
  | runExe (p : String)
  | rename (src : String) (dst : String)
  | copy (src : String) (dst : String)
  | removeFile (p : String)
deriving DecidableEq, Repr

/-- Network effects: calls into the HTTP client. -/
def Effect.isNetwork : Effect → Bool
  | .fetch _ => true
  | _ => false

/-- Filesystem mutations (anything that creates, writes, renames,
copies, deletes a file/directory, or changes permission bits). -/
def Effect.isFsMutation : Effect → Bool
  | .createTempDir => true
  | .createFile _ => true
  | .spawnGunzip => true
  | .writeFile _ => true
  | .spawnPowershell => true
  | .spawnUnzip => true
  | .setPermissions _ => true
  | .rename _ _ => true
  | .copy _ _ => true
  | .removeFile _ => true
  | _ => false

/-- Swap-step effects: the filesystem operations used by step 4.6
(rename/copy into the output path, or `replace_exe`'s
remove/rename/copy of the installed executable). -/
def Effect.isSwap : Effect → Bool
  | .rename _ _ => true
  | .copy _ _ => true
  | .removeFile _ => true
  | _ => false

/-! ### `ARCHIVE_NAME` and `compose_url_to_exec` -/

/-- `lazy_static! ARCHIVE_NAME = format!("deno-{}.zip", env!("TARGET"))`,
parameterised by the compile-time `TARGET` string. -/
def ARCHIVE_NAME (target : String) : String :=
  "deno-" ++ target ++ ".zip"

/-- `compose_url_to_exec`. `Url::parse` cannot fail on this constant
shape, so the URL is modelled as its string. -/
def compose_url_to_exec (target : String) (version : Version) : String :=
  "https://github.com/denoland/deno/releases/download/v"
    ++ Version.toString version ++ "/" ++ ARCHIVE_NAME target

/-! ### `find_version`

The Rust code matches the regex `v([^?]+)?"` with leftmost-first
(Perl-style) semantics and greedy repetition, then strips the leading
`v` and trailing `"` from the whole match.  At a candidate start the
group therefore extends to the **last** `"` reachable without crossing
a `?`. -/

/-- For the characters following a matched `v`: the largest `k` such
that the first `k` characters contain no `?` and the character at index
`k` is `"` — i.e. the greedy extent of `([^?]+)?` before the closing
quote (with `k = 0` for the group-absent alternative). -/
def bestEnd : List Char → Option Nat
  | [] => none
  | c :: rest =>
      if c = '?' then none
      else
        match bestEnd rest with
        | some k => some (k + 1)
        | none => if c = '"' then some 0 else none

/-- Scan for the leftmost `v` from which the regex `v([^?]+)?"`
matches; return the text strictly between that `v` and the closing
quote chosen by the greedy group. -/
def findVersionFrom : List Char → Option String
  | [] => none
  | c :: rest =>
      if c = 'v' then
        match bestEnd rest with
        | some k => some (String.mk (rest.take k))
        | none => findVersionFrom rest
      else findVersionFrom rest

/-- `find_version`: errors are `(class, message)` pairs as built by
`custom_error`. -/
def find_version (text : String) : Except (String × String) String :=
  match findVersionFrom text.data with
  | some s => Except.ok s
  | none => Except.error ("NotFound", "Cannot read latest tag version")

/-- Declarative reading of the regex, used to state the extraction
claim: relative to the characters following a candidate `v`, index `k`
is an *eligible end* when the character there is `"` and no `?` occurs
before it (exactly the positions where `([^?]+)?"` can close). -/
def eligEnd (rest : List Char) (k : Nat) : Prop :=
  rest.get? k = some '"' ∧ ∀ m, m < k → rest.get? m ≠ some '?'

/-- Position `i` of the text can start a match of `v([^?]+)?"`: it
holds a `v` and some eligible closing quote follows. -/
def viable (cs : List Char) (i : Nat) : Prop :=
  cs.get? i = some 'v' ∧ ∃ k, eligEnd (cs.drop (i + 1)) k

instance (rest : List Char) (k : Nat) : Decidable (eligEnd rest k) :=
  inferInstanceAs
    (Decidable (rest.get? k = some '"' ∧ ∀ m, m < k → rest.get? m ≠ some '?'))

/-! ### `Path::extension` -/

/-- The characters after the last `.` of a list, if any. -/
def afterLastDot : List Char → Option (List Char)
  | [] => none
  | c :: rest =>
      match afterLastDot rest with
      | some e => some e
      | none => if c = '.' then some rest else none

/-- `Path::extension` for the simple file names this module builds: the
portion after the last `.`, where a dot in leading position alone does
not count. -/
def pathExtension (name : String) : Option String :=
  match name.data with
  | [] => none
  | _ :: rest =>
      match afterLastDot rest with
      | some e => some (String.mk e)
      | none => none

/-! ### `check_exe` -/

/-- Whitespace as recognised by `str::trim` (restricted to the ASCII
whitespace relevant to version output). -/
def isWsp (c : Char) : Bool :=
  c = ' ' || c = '\t' || c = '\n' || c = '\r'

/-- Drop leading whitespace characters. -/
def dropLeading : List Char → List Char
  | [] => []
  | c :: rest => if isWsp c then dropLeading rest else c :: rest

/-- `str::trim`: remove leading and trailing whitespace. -/
def strTrim (s : String) : String :=
  String.mk (dropLeading ((dropLeading s.data.reverse).reverse))

/-- Result of a call that may return `Ok`, return `Err`, or abort the
process with a panic (failed `assert!`). -/
inductive CheckRes where
  | ok
  | err
  | panicked (msg : String)
deriving DecidableEq, Repr

/-- `check_exe`.  `run` is the outcome of
`Command::new(exe_path).arg("-V").output()` followed by UTF-8 decoding
of stdout: `.error` covers a spawn failure or invalid UTF-8 (both
propagate with `?`), `.ok (success, stdout)` carries the exit-status
flag and decoded stdout. -/
def check_exe (run : Except Unit (Bool × String))
    (expected_version : Version) : CheckRes :=
  match run with
  | .error _ => .err
  | .ok (success, stdout) =>
      if success = false then
        .panicked "assertion failed: output.status.success()"
      else if strTrim stdout = ("deno " ++ Version.toString expected_version) then
        .ok
      else
        .panicked "assertion failed: stdout.trim() == format: deno version"

/-! ### The collaborator environment -/

/-- Outcomes of the external collaborators (HTTP client, filesystem,
subprocesses) consumed by one upgrade invocation.  Boolean fields are
`true` when the corresponding fallible call succeeds.  `fetch` maps the
index of the fetch call (0-based) and the requested URL to the
`fetch_once` outcome (`.error` = transport error). -/
structure Env where
  /-- parse of `crate::version::DENO` (asserted by `unwrap` in the code). -/
  currentVersion : Version
  /-- the `crate::version::DENO` string itself, used in a message. -/
  denoStr : String
  /-- external `semver_parse` on arbitrary strings (`none` = parse error). -/
  parse : String → Option Version
  /-- compile-time `env!("TARGET")`. -/
  target : String
  caReadOk : Bool
  certOk : Bool
  /-- body text of the GET on the releases/latest page. -/
  latestBody : Except Unit String
  fetch : Nat → String → Except Unit FetchOnceResult
  /-- recursion allowance for the redirect-following download (model
  artifact: the Rust recursion is unbounded). -/
  fuel : Nat
  currentExeOk : Bool
  currentExePath : String
  windows : Bool
  tempDirOk : Bool
  /-- whether `exe_path` already exists in the fresh temp dir. -/
  preExists : Bool
  createFileOk : Bool
  spawnOk : Bool
  writeAllOk : Bool
  writeArchiveOk : Bool
  waitOk : Bool
  /-- exit status of the extraction subprocess (`unpack_status.success()`). -/
  unpackStatus : Bool
  /-- whether `exe_path` exists after extraction. -/
  exeExistsAfter : Bool
  metadataOk : Bool
  setPermOk : Bool
  /-- `output()` of the staged executable run with `-V`, with stdout
  UTF-8 decoded (see `check_exe`). -/
  checkRun : Except Unit (Bool × String)
  renameOutOk : Bool
  copyOutOk : Bool
  renameOldOk : Bool
  removeOldOk : Bool
  renameNewOk : Bool
  copyNewOk : Bool

/-- The staging directory created by `TempDir::new().into_path()`. -/
def tempDirPath : String := "TMPDIR"

/-- `Path::with_extension`: drop any existing extension, then append
the new one. -/
def withExtension (p : String) (ext : String) : String :=
  let base :=
    match pathExtension p with
    | some e => p.dropRight (e.length + 1)
    | none => p
  if ext = "" then base else base ++ "." ++ ext

/-! ### `unpack` -/

/-- Result of `unpack`: an `Ok(path)`, a propagated `io::Error`, a
failed `assert!`, the `panic!("Unsupported archive type: ...")`, or the
`unwrap` panic on a missing extension. -/
inductive URes where
  | ok (path : String)
  | ioErr
  | panicAssert (msg : String)
  | panicUnsupported (ext : String)
  | panicUnwrap
deriving DecidableEq, Repr

/-- `unpack(archive_data)`, with the ambient filesystem and subprocess
behaviour drawn from `env` and the archive name passed explicitly
(in the code it is the global `ARCHIVE_NAME`). -/
def unpack (env : Env) (archiveName : String) (_archive_data : List Nat) :
    URes × List Effect :=
  if env.tempDirOk = false then (.ioErr, []) else
  let exe_path : String :=
    if env.windows then tempDirPath ++ "/deno.exe" else tempDirPath ++ "/deno"
  let tr0 : List Effect := [.createTempDir]
  if env.preExists then (.panicAssert "assertion failed: !exe_path.exists()", tr0) else
  match pathExtension archiveName with
  | none => (.panicUnwrap, tr0)
  | some archive_ext =>
      -- common tail: assert the subprocess status and the extracted file
      let finish : List Effect → URes × List Effect := fun tr =>
        if env.unpackStatus = false then
          (.panicAssert "assertion failed: unpack_status.success()", tr)
        else if env.exeExistsAfter = false then
          (.panicAssert "assertion failed: exe_path.exists()", tr)
        else (.ok exe_path, tr)
      if archive_ext = "gz" then
        let tr1 := tr0 ++ [Effect.createFile exe_path]
        if env.createFileOk = false then (.ioErr, tr1) else
        let tr2 := tr1 ++ [Effect.spawnGunzip]
        if env.spawnOk = false then (.ioErr, tr2) else
        if env.writeAllOk = false then (.ioErr, tr2) else
        if env.waitOk = false then (.ioErr, tr2) else
        finish tr2
      else if archive_ext = "zip" && env.windows then
        let archive_path := tempDirPath ++ "/deno.zip"
        let tr1 := tr0 ++ [Effect.writeFile archive_path]
        if env.writeArchiveOk = false then (.ioErr, tr1) else
        let tr2 := tr1 ++ [Effect.spawnPowershell]
        if env.spawnOk = false then (.ioErr, tr2) else
        if env.waitOk = false then (.ioErr, tr2) else
        finish tr2
      else if archive_ext = "zip" then
        let archive_path := tempDirPath ++ "/deno.zip"
        let tr1 := tr0 ++ [Effect.writeFile archive_path]
        if env.writeArchiveOk = false then (.ioErr, tr1) else
        let tr2 := tr1 ++ [Effect.spawnUnzip]
        if env.spawnOk = false then (.ioErr, tr2) else
        if env.waitOk = false then (.ioErr, tr2) else
        finish tr2
      else (.panicUnsupported archive_ext, tr0)

/-! ### `replace_exe` -/

/-- `replace_exe(new, old)`. -/
def replace_exe (env : Env) (new : String) (old : String) :
    Except Unit Unit × List Effect :=
  let step1 : Except Unit (List Effect) :=
    if env.windows then
      let tr := [Effect.rename old (withExtension old "old.exe")]
      if env.renameOldOk then .ok tr else .error ()
    else
      let tr := [Effect.removeFile old]
      if env.removeOldOk then .ok tr else .error ()
  match step1 with
  | .error _ =>
      (.error (), if env.windows then
          [Effect.rename old (withExtension old "old.exe")]
        else [Effect.removeFile old])
  | .ok tr1 =>
      if env.renameNewOk then (.ok (), tr1 ++ [Effect.rename new old])
      else if env.copyNewOk then
        (.ok (), tr1 ++ [Effect.rename new old, Effect.copy new old])
      else (.error (), tr1 ++ [Effect.rename new old, Effect.copy new old])

/-! ### `download_package` -/

/-- Result of `download_package`: body bytes, `std::process::exit(1)`,
the `unreachable!()` panic on `NotModified`, or fuel exhaustion (model
artifact for the unbounded Rust recursion). -/
inductive DRes where
  | ok (body : List Nat)
  | exit (code : Nat)
  | panicked (msg : String)
  | fuelOut
deriving DecidableEq, Repr

/-- `download_package(url, client, version)`, returning the result, the
next fetch-call index, and the effect trace.  `calls` is the number of
`fetch_once` calls already made. -/
def download_package (fetch : Nat → String → Except Unit FetchOnceResult)
    (version : Version) :
    Nat → String → Nat → DRes × Nat × List Effect
  | 0, _, calls => (.fuelOut, calls, [])
  | fuel + 1, url, calls =>
      let pre : List Effect :=
        [.print ("downloading " ++ url), .fetch url]
      match fetch calls url with
      | .error _ =>
          (.exit 1, calls + 1,
            pre ++ [.print "Version has not been found, aborting"])
      | .ok r =>
          let found : List Effect :=
            [.print ("Version has been found\nDeno is upgrading to version "
              ++ Version.toString version)]
          match r with
          | .Code body _ => (.ok body, calls + 1, pre ++ found)
          | .NotModified =>
              (.panicked "internal error: entered unreachable code",
                calls + 1, pre ++ found)
          | .Redirect u _ =>
              let (res, calls2, tr) :=
                download_package fetch version fuel u (calls + 1)
              (res, calls2, pre ++ found ++ tr)

/-! ### `get_latest_version` -/

/-- Result of `get_latest_version`: a parsed version, a propagated
error (`?` on the request, the body read, or `find_version`), or the
`unwrap` panic when the extracted token is not a semver. -/
inductive GRes where
  | ok (v : Version)
  | err
  | panicked
deriving DecidableEq, Repr

/-- The releases/latest URL queried by `get_latest_version`. -/
def latestUrl : String := "https://github.com/denoland/deno/releases/latest"

/-- `get_latest_version(client)`. -/
def get_latest_version (env : Env) : GRes × List Effect :=
  let tr : List Effect := [.print "Checking for latest version", .fetch latestUrl]
  match env.latestBody with
  | .error _ => (.err, tr)
  | .ok body =>
      match find_version body with
      | .error _ => (.err, tr)
      | .ok v =>
          match env.parse v with
          | none => (.panicked, tr)
          | some ver => (.ok ver, tr)

/-! ### `upgrade_command` -/

/-- Terminal outcome of `upgrade_command`: `Ok(())`, an `Err` value
surfaced to the caller, `std::process::exit(code)`, or a panic. -/
inductive Outcome where
  | ok
  | err (what : String)
  | exit (code : Nat)
  | panicked (msg : String)
deriving DecidableEq, Repr

/-- `println!("Version {} is already installed", &ver)`. -/
def alreadyInstalledMsg (v : Version) : String :=
  "Version " ++ Version.toString v ++ " is already installed"

/-- `println!("Local deno version {} is the most recent release", ...)`. -/
def mostRecentMsg (deno : String) : String :=
  "Local deno version " ++ deno ++ " is the most recent release"

/-- `println!("Upgrade done successfully")`. -/
def doneMsg : String := "Upgrade done successfully"

/-- The code of `upgrade_command` after `install_version` has been
resolved: download, unpack, permission copy, verification, and (unless
`dry_run`) the swap, then the success report.  `pre` is the trace
accumulated by the resolution phase. -/
def upgradeRest (env : Env) (dry_run : Bool) (install_version : Version)
    (output : Option String) (pre : List Effect) : Outcome × List Effect :=
  let url := compose_url_to_exec env.target install_version
  let (dres, _calls, dtr) :=
    download_package env.fetch install_version env.fuel url 0
  let t1 := pre ++ dtr
  match dres with
  | .exit n => (.exit n, t1)
  | .panicked m => (.panicked m, t1)
  | .fuelOut => (.err "model: fuel exhausted", t1)
  | .ok archive_data =>
      if env.currentExeOk = false then (.err "current_exe", t1) else
      let old_exe_path := env.currentExePath
      let (ur, utr) := unpack env (ARCHIVE_NAME env.target) archive_data
      let t2 := t1 ++ utr
      match ur with
      | .ioErr => (.err "io", t2)
      | .panicAssert m => (.panicked m, t2)
      | .panicUnsupported e => (.panicked ("Unsupported archive type: " ++ e), t2)
      | .panicUnwrap => (.panicked "called Option::unwrap on a None value", t2)
      | .ok new_exe_path =>
          if env.metadataOk = false then (.err "metadata", t2) else
          let t3 := t2 ++ [Effect.setPermissions new_exe_path]
          if env.setPermOk = false then (.err "set_permissions", t3) else
          let t4 := t3 ++ [Effect.runExe new_exe_path]
          match check_exe env.checkRun install_version with
          | .err => (.err "check_exe", t4)
          | .panicked m => (.panicked m, t4)
          | .ok =>
              if dry_run then (.ok, t4 ++ [Effect.print doneMsg])
              else
                match output with
                | some path =>
                    let t5 := t4 ++ [Effect.rename new_exe_path path]
                    if env.renameOutOk then
                      (.ok, t5 ++ [Effect.print doneMsg])
                    else
                      let t6 := t5 ++ [Effect.copy new_exe_path path]
                      if env.copyOutOk then (.ok, t6 ++ [Effect.print doneMsg])
                      else (.err "io", t6)
                | none =>
                    let (rr, rtr) := replace_exe env new_exe_path old_exe_path
                    match rr with
                    | .error _ => (.err "io", t4 ++ rtr)
                    | .ok _ => (.ok, t4 ++ rtr ++ [Effect.print doneMsg])

/-- `upgrade_command(dry_run, force, version, output, ca_file)`. -/
def upgrade_command (env : Env) (dry_run : Bool) (force : Bool)
    (version : Option String) (output : Option String)
    (ca_file : Option String) : Outcome × List Effect :=
  -- client construction; an explicit CA file is read (`unwrap` on the
  -- read) and parsed as a PEM certificate (`?`)
  let caTr : List Effect :=
    match ca_file with
    | some p => [.readFile p]
    | none => []
  if ca_file.isSome && !env.caReadOk then
    (.panicked "called Result::unwrap on an Err value", caTr)
  else if ca_file.isSome && !env.certOk then (.err "certificate", caTr)
  else
    let current_version := env.currentVersion
    match version with
    | some passed_version =>
        match env.parse passed_version with
        | some ver =>
            if !force && current_version == ver then
              (.ok, caTr ++ [Effect.print (alreadyInstalledMsg ver)])
            else
              upgradeRest env dry_run ver output caTr
        | none => (.exit 1, caTr ++ [Effect.eprint "Invalid semver passed"])
    | none =>
        let (g, gtr) := get_latest_version env
        match g with
        | .err => (.err "get_latest_version", caTr ++ gtr)
        | .panicked => (.panicked "called Result::unwrap on an Err value",
            caTr ++ gtr)
        | .ok latest_version =>
            if !force && Version.bge current_version latest_version then
              (.ok, caTr ++ gtr ++ [Effect.print (mostRecentMsg env.denoStr)])
            else
              upgradeRest env dry_run latest_version output (caTr ++ gtr)

/-! ### A concrete sample environment (used for instantiating theorems) -/

/-- A fully successful collaborator environment: current version 1.2.3,
every filesystem and subprocess step succeeds, the release page names
tag v1.2.3, and the staged executable reports `deno 1.2.3`. -/
def sampleEnv : Env where
  currentVersion := ⟨1, 2, 3⟩
  denoStr := "1.2.3"
  parse := fun s => if s = "1.2.3" then some ⟨1, 2, 3⟩ else none
  target := "x86_64-unknown-linux-gnu"
  caReadOk := true
  certOk := true
  latestBody := .ok
    "<a href=\"https://github.com/denoland/deno/releases/tag/v1.2.3\">"
  fetch := fun _ _ => .ok (.Code [1, 2, 3] none)
  fuel := 8
  currentExeOk := true
  currentExePath := "/usr/bin/deno"
  windows := false
  tempDirOk := true
  preExists := false
  createFileOk := true
  spawnOk := true
  writeAllOk := true
  writeArchiveOk := true
  waitOk := true
  unpackStatus := true
  exeExistsAfter := true
  metadataOk := true
  setPermOk := true
  checkRun := .ok (true, "deno 1.2.3\n")
  renameOutOk := true
  copyOutOk := true
  renameOldOk := true
  removeOldOk := true
  renameNewOk := true
  copyNewOk := true

/-- The URL shape stated by the spec for the Archive Locator:
`<release-host>/download/v<version>/<tool>-<platform>.<ext>`.
(Definition follows the spec text, for comparison with
`compose_url_to_exec`.) -/
def specUrlShape (host tool ext target : String) (v : Version) : String :=
  host ++ "/download/v" ++ Version.toString v ++ "/" ++ tool ++ "-"
    ++ target ++ "." ++ ext

end DenoUpgrade

namespace DenoUpgrade

/-! ### Helper lemmas -/

theorem data_append (a b : String) : (a ++ b).data = a.data ++ b.data := rfl

theorem eligEnd_cons_zero (c : Char) (rest : List Char) :
    eligEnd (c :: rest) 0 ↔ c = '"' := by
  simp [eligEnd]

theorem eligEnd_cons_succ (c : Char) (rest : List Char) (k : Nat) :
    eligEnd (c :: rest) (k + 1) ↔ (c ≠ '?' ∧ eligEnd rest k) := by
  constructor
  · rintro ⟨h1, h2⟩
    refine ⟨?_, by simpa using h1, ?_⟩
    · intro hc
      exact (h2 0 (Nat.succ_pos k)) (by simp [hc])
    · intro m hm
      have := h2 (m + 1) (Nat.succ_lt_succ hm)
      simpa using this
  · rintro ⟨hc, h1, h2⟩
    refine ⟨by simpa using h1, ?_⟩
    intro m hm
    cases m with
    | zero => simpa using hc
    | succ m0 => simpa using h2 m0 (Nat.lt_of_succ_lt_succ hm)

theorem eligEnd_lt_length (rest : List Char) (k : Nat)
    (h : eligEnd rest k) : k < rest.length := by
  by_contra hge
  have hnone : rest.get? k = none := List.get?_eq_none.mpr (Nat.le_of_not_lt hge)
  have hq := h.1
  rw [hnone] at hq
  cases hq

theorem viable_cons_zero (c : Char) (rest : List Char) :
    viable (c :: rest) 0 ↔ (c = 'v' ∧ ∃ k, eligEnd rest k) := by
  simp [viable]

theorem viable_cons_succ (c : Char) (rest : List Char) (i : Nat) :
    viable (c :: rest) (i + 1) ↔ viable rest i := by
  simp [viable]

theorem viable_quote_mem (cs : List Char) (i : Nat) (h : viable cs i) :
    '"' ∈ cs := by
  rcases h with ⟨-, k, hk⟩
  exact List.drop_subset _ _ (List.get?_mem hk.1)

theorem bestEnd_spec : ∀ rest : List Char,
    (∀ k, bestEnd rest = some k →
      eligEnd rest k ∧ ∀ j, eligEnd rest j → j ≤ k)
    ∧ (bestEnd rest = none → ∀ k, ¬eligEnd rest k) := by
  intro rest
  induction rest with
  | nil =>
      refine ⟨fun k hk => by simp [bestEnd] at hk, fun _ k hk => ?_⟩
      simp [eligEnd] at hk
  | cons c rest ih =>
      by_cases hc : c = '?'
      · subst hc
        refine ⟨fun k hk => by simp [bestEnd] at hk, fun _ k hk => ?_⟩
        cases k with
        | zero =>
            rw [eligEnd_cons_zero] at hk
            exact absurd hk (by decide)
        | succ k0 =>
            rw [eligEnd_cons_succ] at hk
            exact hk.1 rfl
      · rcases hbe : bestEnd rest with _ | k0
        · by_cases hq : c = '"'
          · subst hq
            have hval : bestEnd ('"' :: rest) = some 0 := by
              simp [bestEnd, hbe]
            constructor
            · intro k hk
              rw [hval] at hk
              have hk0 : k = 0 := by simpa using hk.symm
              subst hk0
              refine ⟨(eligEnd_cons_zero _ _).mpr rfl, fun j hj => ?_⟩
              cases j with
              | zero => exact Nat.le_refl 0
              | succ j0 =>
                  rw [eligEnd_cons_succ] at hj
                  exact absurd hj.2 (ih.2 hbe j0)
            · intro hnone
              rw [hval] at hnone
              cases hnone
          · have hval : bestEnd (c :: rest) = none := by
              simp [bestEnd, hc, hbe, hq]
            constructor
            · intro k hk
              rw [hval] at hk
              cases hk
            · intro _ k hk
              cases k with
              | zero => exact hq ((eligEnd_cons_zero _ _).mp hk)
              | succ k0 =>
                  rw [eligEnd_cons_succ] at hk
                  exact ih.2 hbe k0 hk.2
        · have hval : bestEnd (c :: rest) = some (k0 + 1) := by
            simp [bestEnd, hc, hbe]
          obtain ⟨helig, hmax⟩ := ih.1 k0 hbe
          constructor
          · intro k hk
            rw [hval] at hk
            have hk0 : k = k0 + 1 := by simpa using hk.symm
            subst hk0
            refine ⟨(eligEnd_cons_succ _ _ _).mpr ⟨hc, helig⟩, fun j hj => ?_⟩
            cases j with
            | zero => exact Nat.zero_le _
            | succ j0 =>
                rw [eligEnd_cons_succ] at hj
                exact Nat.succ_le_succ (hmax j0 hj.2)
          · intro hnone
            rw [hval] at hnone
            cases hnone

theorem bestEnd_eq_of_greatest (rest : List Char) (k : Nat)
    (h1 : eligEnd rest k) (h2 : ∀ j, eligEnd rest j → j ≤ k) :
    bestEnd rest = some k := by
  rcases hbe : bestEnd rest with _ | k0
  · exact absurd h1 ((bestEnd_spec rest).2 hbe k)
  · obtain ⟨he0, hm0⟩ := (bestEnd_spec rest).1 k0 hbe
    have hk : k = k0 := Nat.le_antisymm (hm0 k h1) (h2 k0 he0)
    rw [hk]

theorem findVersionFrom_none_iff : ∀ cs : List Char,
    findVersionFrom cs = none ↔ ∀ i, ¬viable cs i := by
  intro cs
  induction cs with
  | nil =>
      refine ⟨fun _ i hv => ?_, fun _ => rfl⟩
      simp [viable] at hv
  | cons c rest ih =>
      by_cases hc : c = 'v'
      · subst hc
        rcases hbe : bestEnd rest with _ | k
        · have heq : findVersionFrom ('v' :: rest) = findVersionFrom rest := by
            simp [findVersionFrom, hbe]
          rw [heq, ih]
          constructor
          · intro h i
            cases i with
            | zero =>
                rw [viable_cons_zero]
                rintro ⟨-, k, hk⟩
                exact (bestEnd_spec rest).2 hbe k hk
            | succ i0 =>
                rw [viable_cons_succ]
                exact h i0
          · intro h i
            have := h (i + 1)
            rwa [viable_cons_succ] at this
        · have heq : findVersionFrom ('v' :: rest)
              = some (String.mk (rest.take k)) := by
            simp [findVersionFrom, hbe]
          rw [heq]
          constructor
          · intro h
            cases h
          · intro h
            exact absurd ((viable_cons_zero _ _).mpr
              ⟨rfl, k, ((bestEnd_spec rest).1 k hbe).1⟩) (h 0)
      · have heq : findVersionFrom (c :: rest) = findVersionFrom rest := by
          simp [findVersionFrom, hc]
        rw [heq, ih]
        constructor
        · intro h i
          cases i with
          | zero =>
              rw [viable_cons_zero]
              rintro ⟨hcv, -⟩
              exact hc hcv
          | succ i0 =>
              rw [viable_cons_succ]
              exact h i0
        · intro h i
          have := h (i + 1)
          rwa [viable_cons_succ] at this

theorem findVersionFrom_leftmost : ∀ (cs : List Char) (i k : Nat),
    cs.get? i = some 'v' →
    (∀ i2, i2 < i → ¬viable cs i2) →
    bestEnd (cs.drop (i + 1)) = some k →
    findVersionFrom cs = some (String.mk ((cs.drop (i + 1)).take k)) := by
  intro cs
  induction cs with
  | nil => intro i k h; simp at h
  | cons c rest ih =>
      intro i k hv hleft hbe
      cases i with
      | zero =>
          have hcv : c = 'v' := by simpa using hv
          subst hcv
          have hd : ('v' :: rest).drop 1 = rest := rfl
          rw [hd] at hbe
          simp [findVersionFrom, hbe]
      | succ i0 =>
          have hv2 : rest.get? i0 = some 'v' := by simpa using hv
          have hleft2 : ∀ i2, i2 < i0 → ¬viable rest i2 := by
            intro i2 h2
            have := hleft (i2 + 1) (Nat.succ_lt_succ h2)
            rwa [viable_cons_succ] at this
          have hbe2 : bestEnd (rest.drop (i0 + 1)) = some k := by
            simpa [List.drop_succ_cons] using hbe
          have hrec := ih i0 k hv2 hleft2 hbe2
          by_cases hc : c = 'v'
          · subst hc
            have h0 := hleft 0 (Nat.succ_pos i0)
            rw [viable_cons_zero] at h0
            rcases hbe0 : bestEnd rest with _ | k0
            · simp [findVersionFrom, hbe0, hrec, List.drop_succ_cons]
            · exact absurd ⟨rfl, k0, ((bestEnd_spec rest).1 k0 hbe0).1⟩ h0
          · simp [findVersionFrom, hc, hrec, List.drop_succ_cons]

theorem afterLastDot_of_no_dot (l : List Char) (h : '.' ∉ l) :
    afterLastDot l = none := by
  induction l with
  | nil => rfl
  | cons c rest ih =>
      have hc : c ≠ '.' := fun hcd => h (hcd ▸ List.mem_cons_self c rest)
      have hr : '.' ∉ rest := fun hm => h (List.mem_cons_of_mem c hm)
      simp [afterLastDot, ih hr, hc]

theorem afterLastDot_append (l s : List Char) (hs : '.' ∉ s) :
    afterLastDot (l ++ '.' :: s) = some s := by
  induction l with
  | nil => simp [afterLastDot, afterLastDot_of_no_dot s hs]
  | cons c l ih => simp [afterLastDot, ih]

theorem archiveName_ext (target : String) :
    pathExtension (ARCHIVE_NAME target) = some "zip" := by
  have hdata : (ARCHIVE_NAME target).data
      = 'd' :: (("eno-".data ++ target.data) ++ '.' :: "zip".data) := by
    show ("deno-".data ++ target.data ++ ".zip".data)
      = 'd' :: (("eno-".data ++ target.data) ++ '.' :: "zip".data)
    simp
  rw [pathExtension, hdata]
  simp only []
  rw [afterLastDot_append _ _ (by decide)]

theorem isNetwork_print (s : String) : (Effect.print s).isNetwork = false := rfl

theorem isNetwork_fetch (u : String) : (Effect.fetch u).isNetwork = true := rfl

theorem download_chain
    (fetch : Nat → String → Except Unit FetchOnceResult) (v : Version)
    (body : List Nat) :
    ∀ (N start fuel : Nat) (url : String),
      (∀ i u, i < N → ∃ u2 c2, fetch (start + i) u = .ok (.Redirect u2 c2)) →
      (∀ u, ∃ c, fetch (start + N) u = .ok (.Code body c)) →
      N + 1 ≤ fuel →
      ∃ tr, download_package fetch v fuel url start = (.ok body, start + N + 1, tr)
        ∧ tr.countP (fun e => e.isNetwork) = N + 1 := by
  intro N
  induction N with
  | zero =>
      intro start fuel url _hr hc hf
      match fuel, hf with
      | f + 1, _ =>
        obtain ⟨c, hcu⟩ := hc url
        rw [Nat.add_zero] at hcu
        refine ⟨[.print ("downloading " ++ url), .fetch url,
          .print ("Version has been found\nDeno is upgrading to version "
            ++ Version.toString v)], ?_, ?_⟩
        · simp [download_package, hcu]
        · simp [List.countP_cons, Effect.isNetwork]
  | succ n ih =>
      intro start fuel url hr hc hf
      match fuel, hf with
      | f + 1, hf =>
        obtain ⟨u2, c2, hred⟩ := hr 0 url (Nat.succ_pos n)
        rw [Nat.add_zero] at hred
        have hr2 : ∀ i u, i < n → ∃ u3 c3, fetch (start + 1 + i) u = .ok (.Redirect u3 c3) := by
          intro i u hi
          have := hr (i + 1) u (Nat.succ_lt_succ hi)
          simpa [Nat.add_comm, Nat.add_assoc, Nat.add_left_comm] using this
        have hc2 : ∀ u, ∃ c, fetch (start + 1 + n) u = .ok (.Code body c) := by
          intro u
          have := hc u
          simpa [Nat.add_comm, Nat.add_assoc, Nat.add_left_comm] using this
        obtain ⟨tr, htr, hcount⟩ := ih (start + 1) f u2 hr2 hc2 (Nat.lt_succ_iff.mp hf)
        refine ⟨.print ("downloading " ++ url) :: .fetch url ::
          .print ("Version has been found\nDeno is upgrading to version "
            ++ Version.toString v) :: tr, ?_, ?_⟩
        · simp only [download_package, hred]
          rw [htr]
          simp [Prod.ext_iff]
          omega
        · simp [List.countP_cons, isNetwork_print, isNetwork_fetch, hcount]

theorem download_one_success
    (fetch : Nat → String → Except Unit FetchOnceResult) (v : Version)
    (url : String) (f : Nat) (body : List Nat) (ct : Option String)
    (h : fetch 0 url = .ok (.Code body ct)) :
    download_package fetch v (f + 1) url 0 =
      (.ok body, 1,
        [.print ("downloading " ++ url), .fetch url,
         .print ("Version has been found\nDeno is upgrading to version "
           ++ Version.toString v)]) := by
  simp [download_package, h]

theorem get_latest_trace (env : Env) :
    (get_latest_version env).2 =
      [.print "Checking for latest version", .fetch latestUrl] := by
  rw [get_latest_version]
  repeat' split
  all_goals rfl

theorem unpack_unix_zip_success (env : Env) (target : String) (data : List Nat)
    (hwin : env.windows = false) (htmp : env.tempDirOk = true)
    (hpre : env.preExists = false) (hwa : env.writeArchiveOk = true)
    (hsp : env.spawnOk = true) (hwait : env.waitOk = true)
    (hst : env.unpackStatus = true) (hex : env.exeExistsAfter = true) :
    unpack env (ARCHIVE_NAME target) data =
      (.ok (tempDirPath ++ "/deno"),
        [.createTempDir, .writeFile (tempDirPath ++ "/deno.zip"),
         .spawnUnzip]) := by
  simp [unpack, hwin, htmp, hpre, hwa, hsp, hwait, hst, hex, archiveName_ext]

theorem upgradeRest_dry_success (env : Env) (v : Version)
    (output : Option String) (pre : List Effect) (body : List Nat)
    (ct : Option String) (f : Nat) (out : String)
    (hfetch : env.fetch 0 (compose_url_to_exec env.target v) = .ok (.Code body ct))
    (hfuel : env.fuel = f + 1)
    (hexe : env.currentExeOk = true)
    (hwin : env.windows = false) (htmp : env.tempDirOk = true)
    (hpre : env.preExists = false) (hwa : env.writeArchiveOk = true)
    (hsp : env.spawnOk = true) (hwait : env.waitOk = true)
    (hst : env.unpackStatus = true) (hex : env.exeExistsAfter = true)
    (hmeta : env.metadataOk = true) (hperm : env.setPermOk = true)
    (hchk : env.checkRun = .ok (true, out))
    (hout : strTrim out = "deno " ++ Version.toString v) :
    upgradeRest env true v output pre =
      (.ok, pre ++
        [.print ("downloading " ++ compose_url_to_exec env.target v),
         .fetch (compose_url_to_exec env.target v),
         .print ("Version has been found\nDeno is upgrading to version "
           ++ Version.toString v),
         .createTempDir, .writeFile (tempDirPath ++ "/deno.zip"), .spawnUnzip,
         .setPermissions (tempDirPath ++ "/deno"),
         .runExe (tempDirPath ++ "/deno"),
         .print doneMsg]) := by
  simp [upgradeRest, hfuel,
    download_one_success env.fetch v _ f body ct hfetch,
    unpack_unix_zip_success env env.target body hwin htmp hpre hwa hsp hwait hst hex,
    check_exe, hchk, hout, hexe, hmeta, hperm]

theorem upgradeRest_install_success (env : Env) (v : Version)
    (pre : List Effect) (body : List Nat)
    (ct : Option String) (f : Nat) (out : String)
    (hfetch : env.fetch 0 (compose_url_to_exec env.target v) = .ok (.Code body ct))
    (hfuel : env.fuel = f + 1)
    (hexe : env.currentExeOk = true)
    (hwin : env.windows = false) (htmp : env.tempDirOk = true)
    (hpre : env.preExists = false) (hwa : env.writeArchiveOk = true)
    (hsp : env.spawnOk = true) (hwait : env.waitOk = true)
    (hst : env.unpackStatus = true) (hex : env.exeExistsAfter = true)
    (hmeta : env.metadataOk = true) (hperm : env.setPermOk = true)
    (hchk : env.checkRun = .ok (true, out))
    (hout : strTrim out = "deno " ++ Version.toString v)
    (hrm : env.removeOldOk = true) (hrn : env.renameNewOk = true) :
    upgradeRest env false v none pre =
      (.ok, pre ++
        [.print ("downloading " ++ compose_url_to_exec env.target v),
         .fetch (compose_url_to_exec env.target v),
         .print ("Version has been found\nDeno is upgrading to version "
           ++ Version.toString v),
         .createTempDir, .writeFile (tempDirPath ++ "/deno.zip"), .spawnUnzip,
         .setPermissions (tempDirPath ++ "/deno"),
         .runExe (tempDirPath ++ "/deno"),
         .removeFile env.currentExePath,
         .rename (tempDirPath ++ "/deno") env.currentExePath,
         .print doneMsg]) := by
  simp [upgradeRest, hfuel,
    download_one_success env.fetch v _ f body ct hfetch,
    unpack_unix_zip_success env env.target body hwin htmp hpre hwa hsp hwait hst hex,
    check_exe, hchk, hout, hexe, hmeta, hperm, replace_exe, hwin, hrm, hrn]

theorem download_no_swap (fetch : Nat → String → Except Unit FetchOnceResult)
    (v : Version) :
    ∀ (fuel : Nat) (url : String) (calls : Nat),
      ∀ e ∈ (download_package fetch v fuel url calls).2.2, e.isSwap = false := by
  intro fuel
  induction fuel with
  | zero => intro url calls e he; simp [download_package] at he
  | succ f ih =>
      intro url calls e he
      rw [download_package] at he
      rcases hf : fetch calls url with u | r
      · rw [hf] at he
        simp at he
        rcases he with h | h | h <;> subst h <;> rfl
      · rw [hf] at he
        rcases r with ⟨b, c⟩ | _ | ⟨u2, c2⟩
        · simp at he
          rcases he with h | h | h <;> subst h <;> rfl
        · simp at he
          rcases he with h | h | h <;> subst h <;> rfl
        · simp at he
          rcases he with h | h | h | h
          · subst h; rfl
          · subst h; rfl
          · subst h; rfl
          · exact ih u2 (calls + 1) e h

set_option maxHeartbeats 2000000 in
theorem unpack_no_swap (env : Env) (name : String) (data : List Nat) :
    ∀ e ∈ (unpack env name data).2, e.isSwap = false := by
  intro e he
  unfold unpack at he
  repeat' split at he
  all_goals simp_all [Effect.isSwap]
  all_goals (rcases he with h | h | h <;> (try subst h) <;> rfl)
set_option maxHeartbeats 2000000 in
theorem upgradeRest_dry_no_swap (env : Env) (v : Version)
    (output : Option String) (pre : List Effect)
    (hp : ∀ e ∈ pre, e.isSwap = false) :
    ∀ e ∈ (upgradeRest env true v output pre).2, e.isSwap = false := by
  intro e he
  have hdl := download_no_swap env.fetch v env.fuel
    (compose_url_to_exec env.target v) 0
  rcases hdeq : download_package env.fetch v env.fuel
      (compose_url_to_exec env.target v) 0 with ⟨dres, dcalls, dtr⟩
  rw [hdeq] at hdl
  simp only at hdl
  rw [upgradeRest, hdeq] at he
  cases dres with
  | exit n =>
      simp only [List.mem_append] at he
      rcases he with he | he
      · exact hp e he
      · exact hdl e he
  | panicked m =>
      simp only [List.mem_append] at he
      rcases he with he | he
      · exact hp e he
      · exact hdl e he
  | fuelOut =>
      simp only [List.mem_append] at he
      rcases he with he | he
      · exact hp e he
      · exact hdl e he
  | ok archive_data =>
      try simp only [] at he
      have hup := unpack_no_swap env (ARCHIVE_NAME env.target) archive_data
      rcases hueq : unpack env (ARCHIVE_NAME env.target) archive_data
        with ⟨ur, utr⟩
      rw [hueq] at hup
      simp only at hup
      rw [hueq] at he
      try simp only [] at he
      cases ur <;> cases hce : env.currentExeOk <;>
        cases hmd : env.metadataOk <;> cases hsp2 : env.setPermOk <;>
        cases hck : check_exe env.checkRun v <;>
        (try simp [hce, hmd, hsp2, hck, List.mem_append] at he) <;>
        repeat'
          first
          | exact hp e he
          | exact hdl e he
          | exact hup e he
          | (subst he; rfl)
          | (rcases he with he | he)
set_option maxHeartbeats 2000000 in
theorem dry_run_no_swap_all (env : Env) (force : Bool)
    (version output ca_file : Option String) :
    ∀ e ∈ (upgrade_command env true force version output ca_file).2,
      e.isSwap = false := by
  rcases ca_file with _ | cp
  · intro e he
    unfold upgrade_command at he
    simp only [Option.isSome_none, Bool.false_and, Bool.false_eq_true,
      if_false] at he
    try simp only [] at he
    rcases version with _ | sv
    · -- latest path
      rcases hg : get_latest_version env with ⟨g, gtr⟩
      have hgt := get_latest_trace env
      rw [hg] at hgt
      simp only at hgt
      subst hgt
      rw [hg] at he
      try simp only [] at he
      have hpre : ∀ e2 ∈ ([] : List Effect) ++
            [Effect.print "Checking for latest version",
             Effect.fetch latestUrl], e2.isSwap = false := by
        intro e2 h2
        repeat' (first | rfl | (subst h2; rfl) | (simp only [List.mem_append, List.mem_cons, List.mem_singleton, List.not_mem_nil, or_false] at h2) | (rcases h2 with h2 | h2) | (simp at h2))
      cases g with
      | err =>
          try simp only [] at he
          repeat' (first | rfl | (subst he; rfl) | (simp only [List.mem_append, List.mem_cons, List.mem_singleton, List.not_mem_nil, or_false] at he) | (rcases he with he | he) | (simp at he))
      | panicked =>
          try simp only [] at he
          repeat' (first | rfl | (subst he; rfl) | (simp only [List.mem_append, List.mem_cons, List.mem_singleton, List.not_mem_nil, or_false] at he) | (rcases he with he | he) | (simp at he))
      | ok latest_version =>
          try simp only [] at he
          by_cases hgd : (!force && Version.bge env.currentVersion latest_version) = true
          · rw [if_pos hgd] at he
            repeat' (first | rfl | (subst he; rfl) | (simp only [List.mem_append, List.mem_cons, List.mem_singleton, List.not_mem_nil, or_false] at he) | (rcases he with he | he) | (simp at he))
          · rw [if_neg hgd] at he
            exact upgradeRest_dry_no_swap env latest_version output _ hpre e he
    · -- explicit version path
      try simp only [] at he
      rcases hp2 : env.parse sv with _ | ver
      · rw [hp2] at he
        try simp only [] at he
        repeat' (first | rfl | (subst he; rfl) | (simp only [List.mem_append, List.mem_cons, List.mem_singleton, List.not_mem_nil, or_false] at he) | (rcases he with he | he) | (simp at he))
      · rw [hp2] at he
        try simp only [] at he
        by_cases hgd : (!force && env.currentVersion == ver) = true
        · rw [if_pos hgd] at he
          repeat' (first | rfl | (subst he; rfl) | (simp only [List.mem_append, List.mem_cons, List.mem_singleton, List.not_mem_nil, or_false] at he) | (rcases he with he | he) | (simp at he))
        · rw [if_neg hgd] at he
          have hpre : ∀ e2 ∈ ([] : List Effect), e2.isSwap = false := by
            intro e2 h2
            repeat' (first | rfl | (subst h2; rfl) | (simp only [List.mem_append, List.mem_cons, List.mem_singleton, List.not_mem_nil, or_false] at h2) | (rcases h2 with h2 | h2) | (simp at h2))
          exact upgradeRest_dry_no_swap env ver output _ hpre e he
  · intro e he
    unfold upgrade_command at he
    cases hr : env.caReadOk with
    | false =>
        simp [hr] at he
        subst he; rfl
    | true =>
        cases hcert : env.certOk with
        | false =>
            simp [hr, hcert] at he
            subst he; rfl
        | true =>
            simp only [hr, hcert, Option.isSome_some, Bool.not_true,
              Bool.and_false, Bool.false_eq_true, if_false] at he
            try simp only [] at he
            rcases version with _ | sv
            · -- latest path
              rcases hg : get_latest_version env with ⟨g, gtr⟩
              have hgt := get_latest_trace env
              rw [hg] at hgt
              simp only at hgt
              subst hgt
              rw [hg] at he
              try simp only [] at he
              have hpre : ∀ e2 ∈ ([Effect.readFile cp] : List Effect) ++
                    [Effect.print "Checking for latest version",
                     Effect.fetch latestUrl], e2.isSwap = false := by
                intro e2 h2
                repeat' (first | rfl | (subst h2; rfl) | (simp only [List.mem_append, List.mem_cons, List.mem_singleton, List.not_mem_nil, or_false] at h2) | (rcases h2 with h2 | h2) | (simp at h2))
              cases g with
              | err =>
                  try simp only [] at he
                  repeat' (first | rfl | (subst he; rfl) | (simp only [List.mem_append, List.mem_cons, List.mem_singleton, List.not_mem_nil, or_false] at he) | (rcases he with he | he) | (simp at he))
              | panicked =>
                  try simp only [] at he
                  repeat' (first | rfl | (subst he; rfl) | (simp only [List.mem_append, List.mem_cons, List.mem_singleton, List.not_mem_nil, or_false] at he) | (rcases he with he | he) | (simp at he))
              | ok latest_version =>
                  try simp only [] at he
                  by_cases hgd : (!force && Version.bge env.currentVersion latest_version) = true
                  · rw [if_pos hgd] at he
                    repeat' (first | rfl | (subst he; rfl) | (simp only [List.mem_append, List.mem_cons, List.mem_singleton, List.not_mem_nil, or_false] at he) | (rcases he with he | he) | (simp at he))
                  · rw [if_neg hgd] at he
                    exact upgradeRest_dry_no_swap env latest_version output _ hpre e he
            · -- explicit version path
              try simp only [] at he
              rcases hp2 : env.parse sv with _ | ver
              · rw [hp2] at he
                try simp only [] at he
                repeat' (first | rfl | (subst he; rfl) | (simp only [List.mem_append, List.mem_cons, List.mem_singleton, List.not_mem_nil, or_false] at he) | (rcases he with he | he) | (simp at he))
              · rw [hp2] at he
                try simp only [] at he
                by_cases hgd : (!force && env.currentVersion == ver) = true
                · rw [if_pos hgd] at he
                  repeat' (first | rfl | (subst he; rfl) | (simp only [List.mem_append, List.mem_cons, List.mem_singleton, List.not_mem_nil, or_false] at he) | (rcases he with he | he) | (simp at he))
                · rw [if_neg hgd] at he
                  have hpre : ∀ e2 ∈ ([Effect.readFile cp] : List Effect), e2.isSwap = false := by
                    intro e2 h2
                    repeat' (first | rfl | (subst h2; rfl) | (simp only [List.mem_append, List.mem_cons, List.mem_singleton, List.not_mem_nil, or_false] at h2) | (rcases h2 with h2 | h2) | (simp at h2))
                  exact upgradeRest_dry_no_swap env ver output _ hpre e he
theorem upgrade_dry_run_trace (env : Env) (s : String) (v : Version)
    (output : Option String) (body : List Nat) (ct : Option String)
    (f : Nat) (out : String)
    (hp : env.parse s = some v)
    (hfetch : env.fetch 0 (compose_url_to_exec env.target v) = .ok (.Code body ct))
    (hfuel : env.fuel = f + 1)
    (hexe : env.currentExeOk = true)
    (hwin : env.windows = false) (htmp : env.tempDirOk = true)
    (hpre0 : env.preExists = false) (hwa : env.writeArchiveOk = true)
    (hsp : env.spawnOk = true) (hwait : env.waitOk = true)
    (hst : env.unpackStatus = true) (hex : env.exeExistsAfter = true)
    (hmeta : env.metadataOk = true) (hperm : env.setPermOk = true)
    (hchk : env.checkRun = .ok (true, out))
    (hout : strTrim out = "deno " ++ Version.toString v) :
    upgrade_command env true true (some s) output none =
      (.ok,
        [.print ("downloading " ++ compose_url_to_exec env.target v),
         .fetch (compose_url_to_exec env.target v),
         .print ("Version has been found\nDeno is upgrading to version "
           ++ Version.toString v),
         .createTempDir, .writeFile (tempDirPath ++ "/deno.zip"), .spawnUnzip,
         .setPermissions (tempDirPath ++ "/deno"),
         .runExe (tempDirPath ++ "/deno"),
         .print doneMsg]) := by
  have h1 : upgrade_command env true true (some s) output none =
      upgradeRest env true v output [] := by
    simp [upgrade_command, hp]
  rw [h1, upgradeRest_dry_success env v output [] body ct f out hfetch hfuel
    hexe hwin htmp hpre0 hwa hsp hwait hst hex hmeta hperm hchk hout]
  simp

set_option maxHeartbeats 2000000 in
theorem unpack_ok_requires (env : Env) (name : String) (data : List Nat)
    (p : String) (tr : List Effect)
    (h : unpack env name data = (.ok p, tr)) :
    env.unpackStatus = true ∧ env.exeExistsAfter = true := by
  unfold unpack at h
  repeat' split at h
  all_goals simp_all
theorem unpack_assert_fails (env : Env) (name : String) (data : List Nat)
    (htmp : env.tempDirOk = true) (hpre0 : env.preExists = false)
    (hext : pathExtension name = some "zip") (hwin : env.windows = false)
    (hwa : env.writeArchiveOk = true) (hsp : env.spawnOk = true)
    (hwait : env.waitOk = true)
    (hfail : env.unpackStatus = false ∨ env.exeExistsAfter = false) :
    ∃ m, (unpack env name data).1 = URes.panicAssert m := by
  rcases hfail with h | h
  · exact ⟨"assertion failed: unpack_status.success()",
      by simp [unpack, htmp, hpre0, hext, hwin, hwa, hsp, hwait, h]⟩
  · cases hst : env.unpackStatus with
    | false => exact ⟨"assertion failed: unpack_status.success()",
        by simp [unpack, htmp, hpre0, hext, hwin, hwa, hsp, hwait, hst]⟩
    | true => exact ⟨"assertion failed: exe_path.exists()",
        by simp [unpack, htmp, hpre0, hext, hwin, hwa, hsp, hwait, hst, h]⟩

theorem unpack_unsupported_panics (env : Env) (name : String) (data : List Nat)
    (ext : String)
    (htmp : env.tempDirOk = true) (hpre0 : env.preExists = false)
    (hext : pathExtension name = some ext)
    (hgz : ext ≠ "gz") (hzip : ext ≠ "zip") :
    (unpack env name data).1 = URes.panicUnsupported ext := by
  simp [unpack, htmp, hpre0, hext, hgz, hzip]

set_option maxHeartbeats 2000000 in
theorem unpack_zip_no_gunzip (env : Env) (name : String) (data : List Nat)
    (hext : pathExtension name = some "zip") :
    ∀ e ∈ (unpack env name data).2, e ≠ Effect.spawnGunzip := by
  intro e he hcontra
  subst hcontra
  unfold unpack at he
  rw [hext] at he
  repeat' split at he
  all_goals simp_all
set_option maxHeartbeats 2000000 in
theorem unpack_zip_no_unsupported (env : Env) (name : String) (data : List Nat)
    (res : URes) (tr : List Effect)
    (hext : pathExtension name = some "zip")
    (h : unpack env name data = (res, tr)) :
    ∀ ext, res ≠ URes.panicUnsupported ext := by
  intro ext
  unfold unpack at h
  rw [hext] at h
  repeat' split at h
  all_goals simp_all
  all_goals (obtain ⟨h1, h2⟩ := h; subst h1; simp)
/-! ### Claims -/

/-- Claim C1: `check_exe` returns success exactly when running the
staged executable exited successfully and its trimmed stdout equals
`"deno <version>"` for the target version; when the run output is
available but the status or the reported version disagrees, `check_exe`
panics (failed assertion) instead of returning. -/
theorem check_exe_version_guard (run : Except Unit (Bool × String)) (v : Version) :
    (check_exe run v = .ok ↔
      ∃ s, run = .ok (true, s)
        ∧ strTrim s = "deno " ++ Version.toString v)
    ∧ (∀ b s, run = .ok (b, s) →
        b = false ∨ strTrim s ≠ "deno " ++ Version.toString v →
        ∃ m, check_exe run v = .panicked m) := by
  rcases run with u | ⟨b, s⟩
  · refine ⟨⟨fun h => by simp [check_exe] at h, ?_⟩, ?_⟩
    · rintro ⟨s, h, -⟩; cases h
    · intro b s h; cases h
  · constructor
    · constructor
      · intro h
        cases b with
        | false => simp [check_exe] at h
        | true =>
            by_cases hs : strTrim s = "deno " ++ Version.toString v
            · exact ⟨s, rfl, hs⟩
            · simp [check_exe, hs] at h
      · rintro ⟨s2, h, hs⟩
        cases h
        simp [check_exe, hs]
    · rintro b2 s2 h hmis
      have hpair : b = b2 ∧ s = s2 := by
        simpa [Prod.ext_iff] using h
      obtain ⟨hb2, hs2⟩ := hpair
      subst hb2
      subst hs2
      rcases hmis with hb | hs
      · subst hb
        exact ⟨"assertion failed: output.status.success()", by simp [check_exe]⟩
      · cases b with
        | false =>
            exact ⟨"assertion failed: output.status.success()", by simp [check_exe]⟩
        | true =>
            exact ⟨"assertion failed: stdout.trim() == format: deno version",
              by simp [check_exe, hs]⟩

/-- Witness for C1: a matching run is accepted; a wrong version
report panics. -/
theorem check_exe_version_guard_witness :
    check_exe (Except.ok (true, "deno 1.2.3\n")) ⟨1, 2, 3⟩ = CheckRes.ok
    ∧ ∃ m, check_exe (Except.ok (true, "deno 9.9.9")) ⟨1, 2, 3⟩
        = CheckRes.panicked m :=
  ⟨(check_exe_version_guard (Except.ok (true, "deno 1.2.3\n")) ⟨1, 2, 3⟩).1.mpr
      ⟨"deno 1.2.3\n", rfl, by decide⟩,
   (check_exe_version_guard (Except.ok (true, "deno 9.9.9")) ⟨1, 2, 3⟩).2
      true "deno 9.9.9" rfl (Or.inr (by decide))⟩

/-- Claim C2: with an explicit version that parses to the currently
running version and `force` unset, `upgrade_command` returns `Ok` right
after printing the "already installed" message; its effect trace
contains no network fetch and no filesystem mutation. -/
theorem upgrade_already_installed_noop (env : Env) (dry_run : Bool)
    (output ca_file : Option String) (s : String) (v : Version)
    (hca : env.caReadOk = true) (hcert : env.certOk = true)
    (hp : env.parse s = some v) (hv : env.currentVersion = v) :
    upgrade_command env dry_run false (some s) output ca_file =
      (.ok, (match ca_file with
        | some p => [Effect.readFile p]
        | none => []) ++ [Effect.print (alreadyInstalledMsg v)])
    ∧ ∀ e ∈ (upgrade_command env dry_run false (some s) output ca_file).2,
        e.isNetwork = false ∧ e.isFsMutation = false := by
  have h1 : upgrade_command env dry_run false (some s) output ca_file =
      (.ok, (match ca_file with
        | some p => [Effect.readFile p]
        | none => []) ++ [Effect.print (alreadyInstalledMsg v)]) := by
    simp [upgrade_command, hca, hcert, hp, hv]
  refine ⟨h1, ?_⟩
  rw [h1]
  rcases ca_file with _ | p <;>
    simp [Effect.isNetwork, Effect.isFsMutation]

/-- Witness for C2 at the sample environment. -/
theorem upgrade_already_installed_noop_witness :
    upgrade_command sampleEnv false false (some "1.2.3") none none =
      (Outcome.ok, [Effect.print (alreadyInstalledMsg ⟨1, 2, 3⟩)]) := by
  have h := (upgrade_already_installed_noop sampleEnv false none none
    "1.2.3" ⟨1, 2, 3⟩ rfl rfl rfl rfl).1
  simpa using h

/-- Claim C3: in dry-run mode the swap step is never executed — no
dry-run trace contains a rename, copy or file removal — while (when the
resolution proceeds and every collaborator succeeds) download, unpack,
the permission copy onto the staged file and verification are still
performed and success is still reported. -/
theorem dry_run_skips_swap :
    (∀ (env : Env) (force : Bool) (version output ca_file : Option String),
      ∀ e ∈ (upgrade_command env true force version output ca_file).2,
        e.isSwap = false)
    ∧ (∀ (env : Env) (s : String) (v : Version) (output : Option String)
        (body : List Nat) (ct : Option String) (f : Nat) (out : String),
        env.parse s = some v →
        env.fetch 0 (compose_url_to_exec env.target v) = .ok (.Code body ct) →
        env.fuel = f + 1 → env.currentExeOk = true → env.windows = false →
        env.tempDirOk = true → env.preExists = false →
        env.writeArchiveOk = true → env.spawnOk = true → env.waitOk = true →
        env.unpackStatus = true → env.exeExistsAfter = true →
        env.metadataOk = true → env.setPermOk = true →
        env.checkRun = .ok (true, out) →
        strTrim out = "deno " ++ Version.toString v →
        upgrade_command env true true (some s) output none =
          (.ok,
            [.print ("downloading " ++ compose_url_to_exec env.target v),
             .fetch (compose_url_to_exec env.target v),
             .print ("Version has been found\nDeno is upgrading to version "
               ++ Version.toString v),
             .createTempDir, .writeFile (tempDirPath ++ "/deno.zip"),
             .spawnUnzip,
             .setPermissions (tempDirPath ++ "/deno"),
             .runExe (tempDirPath ++ "/deno"),
             .print doneMsg])) :=
  ⟨dry_run_no_swap_all,
   fun env s v output body ct f out hp hfetch hfuel hexe hwin htmp hpre0 hwa
       hsp hwait hst hex hmeta hperm hchk hout =>
     upgrade_dry_run_trace env s v output body ct f out hp hfetch hfuel hexe
       hwin htmp hpre0 hwa hsp hwait hst hex hmeta hperm hchk hout⟩

/-- Witness for C3 at the sample environment: a dry run succeeds,
unpacks and verifies, and never touches the installed executable. -/
theorem dry_run_skips_swap_witness :
    (upgrade_command sampleEnv true true (some "1.2.3") none none).1
        = Outcome.ok
    ∧ Effect.spawnUnzip
        ∈ (upgrade_command sampleEnv true true (some "1.2.3") none none).2
    ∧ Effect.setPermissions (tempDirPath ++ "/deno")
        ∈ (upgrade_command sampleEnv true true (some "1.2.3") none none).2
    ∧ Effect.removeFile sampleEnv.currentExePath
        ∉ (upgrade_command sampleEnv true true (some "1.2.3") none none).2 := by
  have h := dry_run_skips_swap.2 sampleEnv "1.2.3" ⟨1, 2, 3⟩ none [1, 2, 3]
    none 7 "deno 1.2.3\n" rfl rfl rfl rfl rfl rfl rfl rfl rfl rfl rfl rfl
    rfl rfl rfl (by decide)
  refine ⟨by rw [h], by rw [h]; simp, by rw [h]; simp, by rw [h]; simp⟩

/-- Claim C4: if the fetch collaborator answers the first `N` calls
with a redirect and the `(N+1)`-th with a success carrying `body`,
`download_package` returns exactly `body` and performs exactly `N + 1`
fetch calls (both as the final call index and as the count of fetch
effects in the trace). -/
theorem download_follows_redirects
    (fetch : Nat → String → Except Unit FetchOnceResult) (v : Version)
    (body : List Nat) (N fuel : Nat) (url : String)
    (hr : ∀ i u, i < N → ∃ u2 c2, fetch i u = .ok (.Redirect u2 c2))
    (hc : ∀ u, ∃ c, fetch N u = .ok (.Code body c))
    (hf : N + 1 ≤ fuel) :
    ∃ tr, download_package fetch v fuel url 0 = (.ok body, N + 1, tr)
      ∧ tr.countP (fun e => e.isNetwork) = N + 1 := by
  have := download_chain fetch v body N 0 fuel url
    (by intro i u hi; simpa using hr i u hi)
    (by intro u; simpa using hc u) hf
  simpa using this

/-- Witness for C4: two redirects followed by a success. -/
theorem download_follows_redirects_witness :
    (download_package
        (fun i _ => if i < 2 then .ok (.Redirect "next" none)
          else .ok (.Code [7, 7] none)) ⟨1, 0, 0⟩ 3 "start" 0).1
      = DRes.ok [7, 7]
    ∧ (download_package
        (fun i _ => if i < 2 then .ok (.Redirect "next" none)
          else .ok (.Code [7, 7] none)) ⟨1, 0, 0⟩ 3 "start" 0).2.1 = 3 := by
  obtain ⟨tr, htr, hc⟩ := download_follows_redirects
    (fun i _ => if i < 2 then .ok (.Redirect "next" none)
      else .ok (.Code [7, 7] none)) ⟨1, 0, 0⟩ [7, 7] 2 3 "start"
    (fun i u hi => ⟨"next", none, by simp [hi]⟩)
    (fun u => ⟨none, by simp⟩) (by omega)
  exact ⟨by rw [htr], by rw [htr]⟩

/-- Claim C5, counterexample: this input contains the well-formed tag
reference `v0.36.0"`, yet `find_version` does not return `"0.36.0"`:
the regex match anchors at the leftmost `v` (inside `avid`) and the
greedy group extends to the last quote. -/
theorem find_version_markup_counterexample :
    find_version "avid \"v0.36.0\"" = Except.ok "id \"v0.36.0"
      ∧ "id \"v0.36.0" ≠ "0.36.0" :=
  ⟨rfl, by decide⟩

/-- Claim C5, amended: for every input in which some `v` is eventually
followed by a `"` with no intervening `?` (a "matching token"),
`find_version` returns exactly the text between the *leftmost* such `v`
and the *last* eligible quote following it — on the GitHub release
redirect page, where that leftmost `v` begins the tag and the tag's
closing quote is the last eligible quote, this is exactly the dotted
version string (e.g. `"0.36.0"`).  For every input containing no
matching token — and exactly those — it returns the `NotFound` error
rather than a default. -/
theorem find_version_extraction_amended :
    (∀ (text : String) (i k : Nat),
        text.data.get? i = some 'v' →
        (∀ i2, i2 < i → ¬viable text.data i2) →
        eligEnd (text.data.drop (i + 1)) k →
        (∀ j, eligEnd (text.data.drop (i + 1)) j → j ≤ k) →
        find_version text =
          Except.ok (String.mk ((text.data.drop (i + 1)).take k)))
    ∧ (∀ text : String,
        find_version text =
            Except.error ("NotFound", "Cannot read latest tag version")
          ↔ ∀ i, ¬viable text.data i) := by
  constructor
  · intro text i k hv hleft helig hmax
    have hbe : bestEnd (text.data.drop (i + 1)) = some k :=
      bestEnd_eq_of_greatest _ k helig hmax
    rw [find_version, findVersionFrom_leftmost text.data i k hv hleft hbe]
  · intro text
    constructor
    · intro h
      rcases hf : findVersionFrom text.data with _ | s2
      · exact (findVersionFrom_none_iff text.data).1 hf
      · rw [find_version, hf] at h
        cases h
    · intro h
      rw [find_version, (findVersionFrom_none_iff text.data).2 h]

/-- Witness for C5: on the repository's own test input the leftmost
matching `v` is at index 81 and its last eligible quote 6 characters
later, so exactly `"0.36.0"` is extracted; `"never say die"` contains a
`v` but no matching token, so it yields `NotFound`. -/
theorem find_version_extraction_amended_witness :
    find_version "<html><body>You are being <a href=\"https://github.com/denoland/deno/releases/tag/v0.36.0\">redirected</a>.</body></html>"
      = Except.ok "0.36.0"
    ∧ find_version "never say die" =
        Except.error ("NotFound", "Cannot read latest tag version") := by
  constructor
  · have h := find_version_extraction_amended.1
      "<html><body>You are being <a href=\"https://github.com/denoland/deno/releases/tag/v0.36.0\">redirected</a>.</body></html>"
      81 6 (by decide)
      (fun i2 hlt hv => absurd hv.1
        ((by decide : ∀ i2, i2 < 81 →
          "<html><body>You are being <a href=\"https://github.com/denoland/deno/releases/tag/v0.36.0\">redirected</a>.</body></html>".data.get? i2
            ≠ some 'v') i2 hlt))
      (by decide)
      (fun j hj =>
        (by decide : ∀ j, j < 37 →
          eligEnd ("<html><body>You are being <a href=\"https://github.com/denoland/deno/releases/tag/v0.36.0\">redirected</a>.</body></html>".data.drop 82) j
            → j ≤ 6) j (by
              have := eligEnd_lt_length _ _ hj
              simpa using this) hj)
    exact h
  · exact (find_version_extraction_amended.2 "never say die").mpr
      (fun i hv => absurd (viable_quote_mem _ _ hv) (by decide))

/-- Claim C6: `compose_url_to_exec` is a pure function of the version
and the compile-time target (determinism is inherent: it is a Lean
function of exactly these inputs), and the URL it builds has the spec's
shape `<release-host>/download/v<version>/<tool>-<platform>.<ext>` with
host `https://github.com/denoland/deno/releases`, tool `deno` and
extension `zip`. -/
theorem compose_url_form (target : String) (v : Version) :
    compose_url_to_exec target v =
      specUrlShape "https://github.com/denoland/deno/releases" "deno" "zip" target v := by
  have h1 : "https://github.com/denoland/deno/releases/download/v".data
      = "https://github.com/denoland/deno/releases".data ++ "/download/v".data := by decide
  have h2 : "deno-".data = "deno".data ++ "-".data := by decide
  have h3 : ".zip".data = ".".data ++ "zip".data := by decide
  apply String.ext
  simp [compose_url_to_exec, specUrlShape, ARCHIVE_NAME, data_append, h1, h2, h3]

/-- Claim C7: with `force` set and the target version equal to the
currently running version, neither the "already installed" nor the
"already up to date" early exit is taken: on both resolution arms
(explicit version, and latest-version query) the run goes through the
full download, unpack, permission-copy, verification and install
sequence, ending with the swap of the installed executable. -/
theorem force_reinstall_proceeds (env : Env) (s : String)
    (body : List Nat) (ct : Option String) (f : Nat) (out : String)
    (lb : String) (vs : String)
    (hfetch : env.fetch 0 (compose_url_to_exec env.target env.currentVersion)
      = .ok (.Code body ct))
    (hfuel : env.fuel = f + 1)
    (hexe : env.currentExeOk = true)
    (hwin : env.windows = false) (htmp : env.tempDirOk = true)
    (hpre0 : env.preExists = false) (hwa : env.writeArchiveOk = true)
    (hsp : env.spawnOk = true) (hwait : env.waitOk = true)
    (hst : env.unpackStatus = true) (hex : env.exeExistsAfter = true)
    (hmeta : env.metadataOk = true) (hperm : env.setPermOk = true)
    (hchk : env.checkRun = .ok (true, out))
    (hout : strTrim out = "deno " ++ Version.toString env.currentVersion)
    (hrm : env.removeOldOk = true) (hrn : env.renameNewOk = true)
    (hp : env.parse s = some env.currentVersion)
    (hlb : env.latestBody = .ok lb)
    (hfv : find_version lb = .ok vs)
    (hpv : env.parse vs = some env.currentVersion) :
    (upgrade_command env false true (some s) none none =
      (.ok,
        [.print ("downloading "
           ++ compose_url_to_exec env.target env.currentVersion),
         .fetch (compose_url_to_exec env.target env.currentVersion),
         .print ("Version has been found\nDeno is upgrading to version "
           ++ Version.toString env.currentVersion),
         .createTempDir, .writeFile (tempDirPath ++ "/deno.zip"), .spawnUnzip,
         .setPermissions (tempDirPath ++ "/deno"),
         .runExe (tempDirPath ++ "/deno"),
         .removeFile env.currentExePath,
         .rename (tempDirPath ++ "/deno") env.currentExePath,
         .print doneMsg]))
    ∧ (upgrade_command env false true none none none =
      (.ok,
        [.print "Checking for latest version", .fetch latestUrl,
         .print ("downloading "
           ++ compose_url_to_exec env.target env.currentVersion),
         .fetch (compose_url_to_exec env.target env.currentVersion),
         .print ("Version has been found\nDeno is upgrading to version "
           ++ Version.toString env.currentVersion),
         .createTempDir, .writeFile (tempDirPath ++ "/deno.zip"), .spawnUnzip,
         .setPermissions (tempDirPath ++ "/deno"),
         .runExe (tempDirPath ++ "/deno"),
         .removeFile env.currentExePath,
         .rename (tempDirPath ++ "/deno") env.currentExePath,
         .print doneMsg])) := by
  constructor
  · have h1 : upgrade_command env false true (some s) none none =
        upgradeRest env false env.currentVersion none [] := by
      simp [upgrade_command, hp]
    rw [h1, upgradeRest_install_success env env.currentVersion [] body ct f out
      hfetch hfuel hexe hwin htmp hpre0 hwa hsp hwait hst hex hmeta hperm hchk
      hout hrm hrn]
    simp
  · have hg : get_latest_version env =
        (GRes.ok env.currentVersion,
          [.print "Checking for latest version", .fetch latestUrl]) := by
      simp [get_latest_version, hlb, hfv, hpv]
    have h1 : upgrade_command env false true none none none =
        upgradeRest env false env.currentVersion none
          ([.print "Checking for latest version", .fetch latestUrl]) := by
      simp [upgrade_command, hg]
    rw [h1, upgradeRest_install_success env env.currentVersion _ body ct f out
      hfetch hfuel hexe hwin htmp hpre0 hwa hsp hwait hst hex hmeta hperm hchk
      hout hrm hrn]
    simp

/-- Witness for C7 at the sample environment (both resolution arms). -/
theorem force_reinstall_proceeds_witness :
    (upgrade_command sampleEnv false true (some "1.2.3") none none).1
        = Outcome.ok
    ∧ Effect.rename (tempDirPath ++ "/deno") sampleEnv.currentExePath
        ∈ (upgrade_command sampleEnv false true (some "1.2.3") none none).2
    ∧ (upgrade_command sampleEnv false true none none none).1 = Outcome.ok
    ∧ Effect.removeFile sampleEnv.currentExePath
        ∈ (upgrade_command sampleEnv false true none none none).2 := by
  have h := force_reinstall_proceeds sampleEnv "1.2.3" [1, 2, 3] none 7
    "deno 1.2.3\n"
    "<a href=\"https://github.com/denoland/deno/releases/tag/v1.2.3\">"
    "1.2.3" rfl rfl rfl rfl rfl rfl rfl rfl rfl rfl rfl rfl rfl rfl
    (by decide) rfl rfl rfl rfl rfl rfl
  exact ⟨by rw [h.1], by rw [h.1]; simp, by rw [h.2], by rw [h.2]; simp⟩

/-- Claim C8: `unpack` returns a path only when the extraction
subprocess reported success and the expected executable exists
afterwards; if the run reaches the extraction step and either condition
fails the process panics (failed assertion), and an archive extension
outside the supported set panics with "Unsupported archive type". -/
theorem unpack_assertion_guard :
    (∀ (env : Env) (name : String) (data : List Nat) (p : String)
        (tr : List Effect), unpack env name data = (.ok p, tr) →
        env.unpackStatus = true ∧ env.exeExistsAfter = true)
    ∧ (∀ (env : Env) (name : String) (data : List Nat),
        env.tempDirOk = true → env.preExists = false →
        pathExtension name = some "zip" → env.windows = false →
        env.writeArchiveOk = true → env.spawnOk = true → env.waitOk = true →
        env.unpackStatus = false ∨ env.exeExistsAfter = false →
        ∃ m, (unpack env name data).1 = URes.panicAssert m)
    ∧ (∀ (env : Env) (name : String) (data : List Nat) (ext : String),
        env.tempDirOk = true → env.preExists = false →
        pathExtension name = some ext → ext ≠ "gz" → ext ≠ "zip" →
        (unpack env name data).1 = URes.panicUnsupported ext) :=
  ⟨fun env name data p tr h => unpack_ok_requires env name data p tr h,
   fun env name data htmp hpre0 hext hwin hwa hsp hwait hfail =>
     unpack_assert_fails env name data htmp hpre0 hext hwin hwa hsp hwait hfail,
   fun env name data ext htmp hpre0 hext hgz hzip =>
     unpack_unsupported_panics env name data ext htmp hpre0 hext hgz hzip⟩

/-- Witness for C8: a successful unpack had both assertions true; a
false subprocess status panics; an unsupported extension panics. -/
theorem unpack_assertion_guard_witness :
    (sampleEnv.unpackStatus = true ∧ sampleEnv.exeExistsAfter = true)
    ∧ (∃ m, (unpack { sampleEnv with unpackStatus := false }
        (ARCHIVE_NAME sampleEnv.target) []).1 = URes.panicAssert m)
    ∧ (unpack sampleEnv "deno.tar" []).1 = URes.panicUnsupported "tar" :=
  ⟨unpack_assertion_guard.1 sampleEnv (ARCHIVE_NAME sampleEnv.target)
      [1, 2, 3] (tempDirPath ++ "/deno")
      [.createTempDir, .writeFile (tempDirPath ++ "/deno.zip"), .spawnUnzip]
      rfl,
   unpack_assertion_guard.2.1 { sampleEnv with unpackStatus := false }
      (ARCHIVE_NAME sampleEnv.target) [] rfl rfl (archiveName_ext _) rfl rfl
      rfl rfl (Or.inl rfl),
   unpack_assertion_guard.2.2 sampleEnv "deno.tar" [] "tar" rfl rfl rfl
      (by decide) (by decide)⟩

/-- Claim C9: when the fetch collaborator reports a transport error,
`download_package` prints the diagnostic and terminates the process
with exit code 1 after that single call — no retry, and no error value
returned to the caller. -/
theorem download_transport_error_exits
    (fetch : Nat → String → Except Unit FetchOnceResult) (v : Version)
    (url : String) (calls f : Nat) (h : fetch calls url = .error ()) :
    download_package fetch v (f + 1) url calls =
      (.exit 1, calls + 1,
        [.print ("downloading " ++ url), .fetch url,
         .print "Version has not been found, aborting"]) := by
  simp [download_package, h]

/-- Witness for C9: a transport error on the first call. -/
theorem download_transport_error_exits_witness :
    download_package (fun _ _ => Except.error ()) ⟨1, 0, 0⟩ 1 "u" 0 =
      (.exit 1, 1,
        [.print ("downloading " ++ "u"), .fetch "u",
         .print "Version has not been found, aborting"]) :=
  download_transport_error_exits (fun _ _ => Except.error ()) ⟨1, 0, 0⟩
    "u" 0 0 rfl

/-- Claim C10: `ARCHIVE_NAME` carries a literal `.zip` suffix, so the
extension computed inside `unpack` is always `"zip"`; consequently no
run of `unpack` on the real archive name spawns the gunzip branch or
reaches the unsupported-extension panic. -/
theorem archive_ext_always_zip (target : String) (env : Env)
    (data : List Nat) :
    pathExtension (ARCHIVE_NAME target) = some "zip"
    ∧ (∀ e ∈ (unpack env (ARCHIVE_NAME target) data).2,
        e ≠ Effect.spawnGunzip)
    ∧ (∀ ext, (unpack env (ARCHIVE_NAME target) data).1
        ≠ URes.panicUnsupported ext) :=
  ⟨archiveName_ext target,
   unpack_zip_no_gunzip env (ARCHIVE_NAME target) data (archiveName_ext target),
   unpack_zip_no_unsupported env (ARCHIVE_NAME target) data
     (unpack env (ARCHIVE_NAME target) data).1
     (unpack env (ARCHIVE_NAME target) data).2
     (archiveName_ext target) rfl⟩

/-- Witness for C10 at a concrete target and environment. -/
theorem archive_ext_always_zip_witness :
    pathExtension (ARCHIVE_NAME "aarch64-apple-darwin") = some "zip"
    ∧ (∀ e ∈ (unpack sampleEnv (ARCHIVE_NAME "aarch64-apple-darwin") [9]).2,
        e ≠ Effect.spawnGunzip)
    ∧ ∀ ext, (unpack sampleEnv (ARCHIVE_NAME "aarch64-apple-darwin") [9]).1
        ≠ URes.panicUnsupported ext :=
  archive_ext_always_zip "aarch64-apple-darwin" sampleEnv [9]

/-- Witness for C6 at a concrete target and version. -/
theorem compose_url_form_witness :
    compose_url_to_exec "x86_64-pc-windows-msvc" ⟨0, 36, 0⟩ =
      specUrlShape "https://github.com/denoland/deno/releases" "deno" "zip"
        "x86_64-pc-windows-msvc" ⟨0, 36, 0⟩ :=
  compose_url_form "x86_64-pc-windows-msvc" ⟨0, 36, 0⟩

end DenoUpgrade
